import Mathlib

/-!
Verification of the PackingList Excel-ingestion core.

This file gives a shallow embedding, in Lean 4, of the data-cleaning pipeline of
the PackingList repository (`src/utils/excel_reader.py`, `src/utils/pdf_generator.py`,
`src/app.py`) and proves or refutes the frozen specification claims about it.

Modeling conventions, stated once here:
* A spreadsheet cell is a `Value`: the Python object `None` (`Value.none`),
  the float `nan` that pandas uses as its missing-cell marker (`Value.nan`),
  a string, an integer, or a numeric float.  Numeric Python floats are
  idealized as exact decimal numbers `m / 10^s` (`PyF`), since every float
  literal the pipeline manipulates comes from decimal cell text; binary
  rounding and `inf` are outside the model, while `nan` is kept as its own
  constructor because the coercion functions treat it unlike any number.
  Rational-number semantics of a `PyF` is given by `PyF.toRat`; the result of
  the float coercion is a `PFloat`, a numeric float or `nan`.
* Python `str.strip()` is `pyStrip` (drops leading/trailing whitespace),
  `str.lower()` is `lowerStr` (ASCII case folding), `in` on strings is
  `strContains`, `str(i)` on integers is `natRepr` / `intRepr` (plain decimal
  rendering, defined here so that its injectivity is provable).
* A pandas DataFrame is a rectangular grid `List (List Value)` plus a list of
  column labels; `dropna`, `iloc`, `iterrows` and label-based `row.get` are
  modeled explicitly, including the fact that `dropna` keeps the original
  integer row labels while `iloc` slices positionally.
* `pd.isna` is true exactly on `Value.none` and `Value.nan`; Python
  truthiness of an optional string (`if col:`) is `truthyO`.
-/

/-- ASCII lower-casing of one character, modeling `str.lower()` on the
character set the pipeline actually sees. -/
def asciiLower (c : Char) : Char :=
  if 'A' ≤ c ∧ c ≤ 'Z' then Char.ofNat (c.toNat + 32) else c

/-- Lower-casing of a string, modeling Python `str.lower()`. -/
def lowerStr (s : String) : String :=
  ⟨s.data.map asciiLower⟩

/-- Drop of leading whitespace on a character list. -/
def dropWS (l : List Char) : List Char :=
  l.dropWhile Char.isWhitespace

/-- Python `str.strip()`: drop leading and trailing whitespace. -/
def pyStrip (s : String) : String :=
  ⟨((dropWS s.data).reverse.dropWhile Char.isWhitespace).reverse⟩

/-- Removal of every occurrence of a character, modeling `str.replace(c, '')`. -/
def removeAllChar (c : Char) (s : String) : String :=
  ⟨s.data.filter (fun d => d ≠ c)⟩

/-- Test that `pat` occurs at the head of `hay`. -/
def isPrefOf : List Char → List Char → Bool
  | [], _ => true
  | _ :: _, [] => false
  | a :: as, b :: bs => a = b && isPrefOf as bs

/-- Substring search on character lists; `containsSub hay pat` models
Python `pat in hay`. -/
def containsSub : List Char → List Char → Bool
  | [], pat => pat.isEmpty
  | h :: t, pat => isPrefOf pat (h :: t) || containsSub t pat

/-- Python substring test `pat in hay` on strings. -/
def strContains (hay pat : String) : Bool :=
  containsSub hay.data pat.data

/-- Decimal digit character for `n < 10`. -/
def digitCh : Nat → Char
  | 0 => '0' | 1 => '1' | 2 => '2' | 3 => '3' | 4 => '4'
  | 5 => '5' | 6 => '6' | 7 => '7' | 8 => '8' | _ => '9'

/-- Decimal digit list of a natural number; the first argument is recursion
fuel (any fuel above the number works, see `natDigitsF_fuel`). -/
def natDigitsF : Nat → Nat → List Char
  | 0, _ => []
  | fuel + 1, n => if n < 10 then [digitCh n] else natDigitsF fuel (n / 10) ++ [digitCh (n % 10)]

/-- Decimal rendering of a natural number, modeling Python `str(n)`. -/
def natRepr (n : Nat) : String :=
  ⟨natDigitsF (n + 1) n⟩

/-- Decimal rendering of an integer, modeling Python `str(n)`. -/
def intRepr (n : Int) : String :=
  (if n < 0 then "-" else "") ++ natRepr n.natAbs

/-- Numeric value of a decimal digit list (48 is the code of '0'). -/
def digitsVal (l : List Char) : Nat :=
  l.foldl (fun a c => 10 * a + (c.toNat - 48)) 0

/-- Two-digit zero-padded rendering, modeling the fraction part of `"%.2f"`. -/
def pad2 (k : Nat) : String :=
  if k < 10 then "0" ++ natRepr k else natRepr k

section DigitLemmas

theorem digitCh_isDigit (n : Nat) (h : n < 10) : (digitCh n).isDigit := by
  interval_cases n <;> decide

theorem digitCh_inj {m n : Nat} (hm : m < 10) (hn : n < 10) (h : digitCh m = digitCh n) :
    m = n := by
  interval_cases m <;> interval_cases n <;> simp_all <;> exact absurd h (by decide)

theorem natDigitsF_fuel (f₁ : Nat) : ∀ f₂ n, n < f₁ → n < f₂ →
    natDigitsF f₁ n = natDigitsF f₂ n := by
  induction f₁ with
  | zero => intro f₂ n h; omega
  | succ f ih =>
    intro f₂ n h1 h2
    match f₂, h2 with
    | f₂ + 1, h2 =>
      simp only [natDigitsF]
      by_cases hn : n < 10
      · simp [hn]
      · simp only [hn, if_false]
        have hd : n / 10 < f := by omega
        have hd2 : n / 10 < f₂ := by omega
        rw [ih f₂ (n / 10) hd hd2]

theorem digitsVal_append (a b : List Char) :
    digitsVal (a ++ b) = b.foldl (fun x c => 10 * x + (c.toNat - 48)) (digitsVal a) := by
  simp [digitsVal, List.foldl_append]

theorem digitsVal_natDigitsF (f : Nat) : ∀ n, n < f → digitsVal (natDigitsF f n) = n := by
  induction f with
  | zero => intro n h; omega
  | succ f ih =>
    intro n h
    simp only [natDigitsF]
    by_cases hn : n < 10
    · simp only [hn, if_true]
      interval_cases n <;> decide
    · simp only [hn, if_false]
      have hd : n / 10 < f := by omega
      rw [digitsVal_append, ih (n / 10) hd]
      have h10 : n % 10 < 10 := Nat.mod_lt _ (by omega)
      have : (digitCh (n % 10)).toNat - 48 = n % 10 := by
        interval_cases h' : n % 10 <;> simp_all <;> decide
      simp [this]
      omega

theorem natRepr_inj {m n : Nat} (h : natRepr m = natRepr n) : m = n := by
  have hm : digitsVal (natDigitsF (m + 1) m) = m := digitsVal_natDigitsF _ _ (by omega)
  have hn : digitsVal (natDigitsF (n + 1) n) = n := digitsVal_natDigitsF _ _ (by omega)
  have hdata : natDigitsF (m + 1) m = natDigitsF (n + 1) n := by
    have := congrArg String.data h
    simpa [natRepr] using this
  rw [hdata] at hm
  omega

theorem natDigitsF_digits (f : Nat) : ∀ n c, c ∈ natDigitsF f n → c.isDigit := by
  induction f with
  | zero => intro n c h; simp [natDigitsF] at h
  | succ f ih =>
    intro n c h
    simp only [natDigitsF] at h
    by_cases hn : n < 10
    · simp only [hn, if_true, List.mem_singleton] at h
      subst h; exact digitCh_isDigit _ hn
    · simp only [hn, if_false, List.mem_append, List.mem_singleton] at h
      rcases h with h | h
      · exact ih _ _ h
      · subst h; exact digitCh_isDigit _ (Nat.mod_lt _ (by omega))

theorem natRepr_digits (n : Nat) (c : Char) (h : c ∈ (natRepr n).data) : c.isDigit :=
  natDigitsF_digits _ _ _ h

theorem natDigitsF_ne_nil (f n : Nat) (h : n < f) : natDigitsF f n ≠ [] := by
  match f, h with
  | f + 1, h =>
    simp only [natDigitsF]
    by_cases hn : n < 10
    · simp [hn]
    · simp [hn]

theorem natRepr_ne_empty (n : Nat) : natRepr n ≠ "" := by
  intro h
  have := congrArg String.data h
  simp only [natRepr] at this
  exact natDigitsF_ne_nil _ _ (by omega) this

end DigitLemmas

/-! ## Cell values -/

/-- Idealized Python float: the exact decimal number `m / 10^s`.  Every float
the pipeline manipulates originates from decimal text, so this captures the
values exactly; binary rounding, `inf` and `nan` are outside the model. -/
structure PyF where
  m : Int
  s : Nat
deriving DecidableEq, Repr

/-- Rational value of an idealized float. -/
def PyF.toRat (a : PyF) : ℚ :=
  (a.m : ℚ) / 10 ^ a.s

/-- Python float addition (exact in the decimal idealization). -/
def PyF.add (a b : PyF) : PyF :=
  if a.s ≤ b.s then ⟨a.m * 10 ^ (b.s - a.s) + b.m, b.s⟩
  else ⟨a.m + b.m * 10 ^ (a.s - b.s), a.s⟩

instance : Add PyF := ⟨PyF.add⟩

/-- Zero float, Python `0.0`. -/
def PyF.zero : PyF := ⟨0, 0⟩

theorem PyF.toRat_add (a b : PyF) : (a + b).toRat = a.toRat + b.toRat := by
  show (PyF.add a b).toRat = _
  unfold PyF.add PyF.toRat
  by_cases h : a.s ≤ b.s
  · simp only [h, if_true]
    have key : (10 : ℚ) ^ b.s = 10 ^ (b.s - a.s) * 10 ^ a.s := by
      rw [← pow_add]; congr 1; omega
    push_cast
    rw [add_div, key, mul_comm ((10:ℚ) ^ (b.s - a.s)),
      mul_div_mul_right _ _ (by positivity : ((10:ℚ) ^ (b.s - a.s)) ≠ 0)]
  · simp only [h, if_false]
    have key : (10 : ℚ) ^ a.s = 10 ^ (a.s - b.s) * 10 ^ b.s := by
      rw [← pow_add]; congr 1; omega
    push_cast
    rw [add_div, key, mul_comm ((10:ℚ) ^ (a.s - b.s)),
      mul_div_mul_right _ _ (by positivity : ((10:ℚ) ^ (a.s - b.s)) ≠ 0)]

/-- Truncation toward zero of an idealized float, modeling Python `int(x)`. -/
def PyF.trunc (a : PyF) : Int :=
  a.m.tdiv (10 ^ a.s)

/-- Spreadsheet cell value: the object `None`, the float `nan` (the pandas
missing-cell marker), text, an integer, or a numeric float. -/
inductive Value where
  | none : Value
  | nan : Value
  | str : String → Value
  | int : Int → Value
  | float : PyF → Value
deriving DecidableEq, Repr

/-- Model of `pd.isna`: true on `None` and on the float `nan`. -/
def isna : Value → Bool
  | .none => true
  | .nan => true
  | _ => false

/-- Decimal rendering of an idealized float, modeling Python `str` on a float
with a finite decimal expansion (integral floats render with a trailing
`.0`, fractional ones with their fraction without trailing zeros). -/
def floatRepr (a : PyF) : String :=
  let n := a.m.natAbs
  let sign := if a.m < 0 then "-" else ""
  let ip := n / 10 ^ a.s
  let fpDigits := (List.replicate (a.s - (natRepr (n % 10 ^ a.s)).data.length) '0') ++
    (natRepr (n % 10 ^ a.s)).data
  let fpTrimmed := (fpDigits.reverse.dropWhile (fun c => c = '0')).reverse
  sign ++ natRepr ip ++ "." ++ (if fpTrimmed.isEmpty then "0" else ⟨fpTrimmed⟩)

/-- Model of Python `str(value)` on a cell value (`str(None)` is `"None"`,
`str(nan)` is `"nan"`). -/
def pyStr : Value → String
  | .none => "None"
  | .nan => "nan"
  | .str s => s
  | .int n => intRepr n
  | .float a => floatRepr a

/-! ## Safe numeric coercion (`parse_int`, `parse_float`) -/

/-- Digit-list parse: `some` of the numeric value when the list is nonempty
and all digits, else `none`. -/
def parseDigits : List Char → Option Nat
  | [] => Option.none
  | l => if l.all Char.isDigit then some (digitsVal l) else Option.none

/-- Leading-sign split: returns (isNegative, rest). -/
def splitSign : List Char → Bool × List Char
  | '+' :: t => (false, t)
  | '-' :: t => (true, t)
  | l => (false, l)

/-- Split of a character list at the first occurrence of a separator
satisfying `p`: `(before, some after)` or `(l, none)`. -/
def splitFirst (p : Char → Bool) : List Char → List Char × Option (List Char)
  | [] => ([], Option.none)
  | c :: t =>
    if p c then ([], some t)
    else
      let r := splitFirst p t
      (c :: r.1, r.2)

/-- Mantissa parse `digits [. digits]` (one part may be empty, not both):
returns the integer formed by all digits together with the number of
fraction digits. -/
def parseMantissa (l : List Char) : Option (Nat × Nat) :=
  let r := splitFirst (fun c => c = '.') l
  match r.2 with
  | Option.none => (parseDigits r.1).map (fun v => (v, 0))
  | some fp =>
    if r.1.all Char.isDigit ∧ fp.all Char.isDigit ∧ (r.1 ≠ [] ∨ fp ≠ []) then
      some (digitsVal (r.1 ++ fp), fp.length)
    else Option.none

/-- Model of Python `float(s)` on cleaned text, in the decimal idealization:
`some` exact decimal value or `none` for a parse failure (`ValueError`).
The grammar is `[+-]? (digits [. digits?] | . digits) ([eE] [+-]? digits)?`;
`inf`/`nan` literals and digit-group underscores are outside the model. -/
def pyFloatOfStr (str0 : String) : Option PyF :=
  let (neg, l1) := splitSign str0.data
  let (mant, expPart) := splitFirst (fun c => c = 'e' ∨ c = 'E') l1
  let expVal : Option Int :=
    match expPart with
    | Option.none => some 0
    | some ex =>
      let (eneg, edig) := splitSign ex
      (parseDigits edig).map (fun v => if eneg then -(v : Int) else (v : Int))
  match parseMantissa mant, expVal with
  | some (v, fl), some e =>
    let sv : Int := if neg then -(v : Int) else (v : Int)
    if fl ≤ e then some ⟨sv * 10 ^ (e - fl).toNat, 0⟩
    else some ⟨sv, (fl - e).toNat⟩
  | _, _ => Option.none

/-- Python cleaning step shared by both coercions:
`str(value).strip().replace(',', '').replace(' ', '')`. -/
def pyClean (s : String) : String :=
  removeAllChar ' ' (removeAllChar ',' (pyStrip s))

/-- Model of `parse_int` (src/utils/excel_reader.py): safe coercion of a cell
value to an integer, with `default` on missing input or parse failure;
text goes through `int(float(s))`, i.e. truncation toward zero.  The
`pd.isna` guard returns the default for both `None` and `nan`; the
pdf_generator copy of `parse_int` lacks the guard but `int(nan)` raises into
its `except` and yields the default too, so one model serves both. -/
def parse_int (value : Value) (default : Int) : Int :=
  match value with
  | .none => default
  | .nan => default
  | .int n => n
  | .float a => a.trunc
  | .str s =>
    let s' := pyClean s
    if s' = "" then default
    else match pyFloatOfStr s' with
      | some a => a.trunc
      | Option.none => default

/-- Result of the Python float coercion: a numeric float, or `nan`. -/
inductive PFloat where
  | num : PyF → PFloat
  | nan : PFloat
deriving DecidableEq, Repr

/-- Stringify branch shared by both coercions: `float(str(value)...)` after
cleaning, with `default` for an empty or unparseable string.  The decimal
grammar only produces numeric values, never `nan`. -/
def parse_float_str (s : String) (default : PyF) : PyF :=
  let s' := pyClean s
  if s' = "" then default
  else match pyFloatOfStr s' with
    | some a => a
    | Option.none => default

/-- Model of `parse_float` (src/utils/pdf_generator.py).  The function has no
`pd.isna` guard: `isinstance(value, (int, float))` is checked first, and the
float `nan` satisfies it, so `float(nan) = nan` is returned as-is — only
non-numbers are stringified (`str(None) = "None"` never parses, so `None`
falls back to the default through the `except`).  The default is the numeric
float the callers supply (`0.0`). -/
def parse_float (value : Value) (default : PyF) : PFloat :=
  match value with
  | .nan => PFloat.nan
  | .int n => .num ⟨n, 0⟩
  | .float a => .num a
  | v => .num (parse_float_str (pyStr v) default)

theorem parse_float_str_case (s : String) (d : PyF) :
    parse_float (.str s) d = PFloat.num (parse_float_str s d) := rfl

/-! ## Column resolver (`find_column`) -/

/-- Match test of one column label against one alias, as in `find_column`:
the column label is lower-cased and stripped, the alias only lower-cased,
and either may contain the other. -/
def aliasMatch (col al : String) : Bool :=
  let colLower := pyStrip (lowerStr col)
  strContains colLower (lowerStr al) || strContains (lowerStr al) colLower

/-- Match test of one column against an ordered alias list (inner loop of
`find_column`). -/
def matchesAliases (aliases : List String) (col : String) : Bool :=
  aliases.any (fun a => aliasMatch col a)

/-- Model of `find_column` (src/utils/excel_reader.py): first column, in table
order, some alias of which matches; `none` is the not-found marker.  Python
builds an insertion-ordered dict of lower-cased labels first; since the match
only depends on the label, iterating that dict returns the same first matching
label as iterating the column list directly. -/
def find_column (cols : List String) (aliases : List String) : Option String :=
  cols.find? (matchesAliases aliases)

/-! ## Sheet extractor (`leer_hoja_excel`) -/

/-- Keyword list the header scan looks for (src/utils/excel_reader.py line 73). -/
def headerKeywords : List String :=
  ["pallet", "lote", "fecha", "cantidad", "cajas", "parte"]

/-- Concatenated lower-cased text of the non-missing cells of a row, joined
with single spaces: `' '.join(str(x).lower() for x in row if not pd.isna(x))`. -/
def rowText (row : List Value) : String :=
  String.intercalate " " ((row.filter (fun v => ¬ isna v)).map (fun v => lowerStr (pyStr v)))

/-- Row test of the header scan: some keyword occurs in the row text. -/
def rowHasHeaderKw (row : List Value) : Bool :=
  headerKeywords.any (fun w => strContains (rowText row) w)

/-- Header-row selection of `leer_hoja_excel`: first row among the first
`buscar` rows whose text contains a keyword, else row 0.  Scanning
`range(min(buscar, len(g)))` visits exactly the rows of `g.take buscar`. -/
def headerRowIdx (g : List (List Value)) (buscar : Nat) : Nat :=
  ((g.take buscar).findIdx? rowHasHeaderKw).getD 0

/-- Optional trimmed text of a header cell: `none` when the cell is missing
or its stripped text is empty (the `pd.isna(h) or str(h).strip() == ''` test). -/
def headerCell (v : Value) : Option String :=
  if isna v ∨ pyStrip (pyStr v) = "" then Option.none else some (pyStrip (pyStr v))

/-- Lookup in the `seen_headers` occurrence map (first entry wins, as in a
Python dict; the map never holds a key twice). -/
def seenGet : List (String × Nat) → String → Option Nat
  | [], _ => Option.none
  | (k1, v1) :: t, k => if k = k1 then some v1 else seenGet t k

/-- Update of the `seen_headers` occurrence map at an existing key. -/
def seenBump (seen : List (String × Nat)) (k : String) (v : Nat) : List (String × Nat) :=
  seen.map (fun p => if p.1 = k then (p.1, v) else p)

/-- Worker of the header-repair loop: position `i`, occurrence map `seen`. -/
def cleanHeadersGo : List (Option String) → Nat → List (String × Nat) → List String
  | [], _, _ => []
  | Option.none :: t, i, seen =>
    ("col_vacia_" ++ natRepr i) :: cleanHeadersGo t (i + 1) seen
  | some h :: t, i, seen =>
    match seenGet seen h with
    | some k => (h ++ "_" ++ natRepr (k + 1)) :: cleanHeadersGo t (i + 1) (seenBump seen h (k + 1))
    | Option.none => h :: cleanHeadersGo t (i + 1) ((h, 0) :: seen)

/-- Model of the header cleaning of `leer_hoja_excel` (blank cell →
`col_vacia_<i>`, repeated label → `<label>_<count>`). -/
def cleanHeaders (hs : List Value) : List String :=
  cleanHeadersGo (hs.map headerCell) 0 []

/-- Row test of the stop-keyword scan: some stop word, lower-cased, occurs in
the row text. -/
def rowHasStopKw (detener : List String) (row : List Value) : Bool :=
  detener.any (fun w => strContains (rowText row) (lowerStr w))

/-- Row width of a raw grid (pandas pads ragged rows with NaN to the maximum
width). -/
def gridWidth (g : List (List Value)) : Nat :=
  g.foldr (fun r acc => max r.length acc) 0

/-- Padding of one row to width `w` with missing cells. -/
def padRow (w : Nat) (r : List Value) : List Value :=
  r ++ List.replicate (w - r.length) Value.none

/-- Rectangular padded grid, as loaded by `pd.read_excel(..., header=None)`. -/
def padGrid (g : List (List Value)) : List (List Value) :=
  g.map (padRow (gridWidth g))

/-- Data segment of `leer_hoja_excel` after dropping fully-empty rows: the
rows strictly below the header row, paired with their positional labels
produced by `reset_index(drop=True)`.  `dropna(how='all')` removes rows whose
cells are all missing but keeps the original labels. -/
def dataRowsLabeled (rows : List (List Value)) (h : Nat) : List (Nat × List Value) :=
  ((rows.drop (h + 1)).enum).filter (fun p => ¬ p.2.all (fun v => isna v))

/-- Stop-keyword truncation of `leer_hoja_excel`: scan the kept rows in order
for the first stop-keyword match; on a match at label `l`, `df.iloc[:l]`
keeps the first `l` rows of the current (already filtered) frame —
positional slicing with a pre-filter label. -/
def applyStopCut (detener : List String) (lrows : List (Nat × List Value)) :
    List (Nat × List Value) :=
  match lrows.find? (fun p => rowHasStopKw detener p.2) with
  | some p => lrows.take p.1
  | Option.none => lrows

/-- Model of `leer_hoja_excel` (src/utils/excel_reader.py): clean column
labels plus the extracted data rows.  Reading the sheet itself is outside
the model; the function takes the already-loaded raw grid. -/
def leer_hoja_excel (g : List (List Value)) (buscar : Nat) (detener : List String) :
    List String × List (List Value) :=
  let rows := padGrid g
  let h := headerRowIdx rows buscar
  let cols := cleanHeaders (rows.getD h [])
  let final := applyStopCut detener (dataRowsLabeled rows h)
  (cols, final.map (fun p => p.2))

/-! ## Record extractor (`extraer_datos_excel`) -/

/-- Python truthiness of an optional string (`if col:`): false for `None`
and for the empty string. -/
def truthyO : Option String → Bool
  | Option.none => false
  | some s => s ≠ ""

/-- Label-based cell access `row.get(col)` on a table row: `None` (missing)
when the label is absent, else the cell at the label's column position. -/
def rowGet (cols : List String) (row : List Value) (c : String) : Value :=
  match cols.indexOf? c with
  | some i => row.getD i Value.none
  | Option.none => Value.none

/-- Label-based cell access `row.get(col, '')` with empty-string default. -/
def rowGetD (cols : List String) (row : List Value) (c : String) : Value :=
  match cols.indexOf? c with
  | some i => row.getD i Value.none
  | Option.none => Value.str ""

/-- Python `value == ''` on a cell value. -/
def eqEmptyStr : Value → Bool
  | .str s => s = ""
  | _ => false

/-- Column resolution of `extraer_datos_excel`: each logical field of the
alias map is resolved once via `find_column`. -/
def resolveColumns (cols : List String) (cfg : List (String × List String)) :
    List (String × Option String) :=
  cfg.map (fun p => (p.1, find_column cols p.2))

/-- Resolved column of one logical field (`columnas_encontradas.get(name)`);
a missing field and an unresolved field both give `None`. -/
def resolvedCol (found : List (String × Option String)) (name : String) : Option String :=
  (List.lookup name found).join

/-- Skip test of `extraer_datos_excel`: the row is dropped exactly when the
pallet and quantity fields both resolved to truthy columns and both cells
are missing. -/
def skipRow (cols : List String) (found : List (String × Option String))
    (row : List Value) : Bool :=
  truthyO (resolvedCol found "numero_pallet") && truthyO (resolvedCol found "cantidad") &&
    isna (rowGet cols row ((resolvedCol found "numero_pallet").getD "")) &&
    isna (rowGet cols row ((resolvedCol found "cantidad").getD ""))

/-- Value of one logical field of a record: `""` for an unresolved (falsy)
column or a blank/missing cell, else the trimmed cell text. -/
def buildField (cols : List String) (row : List Value) (oc : Option String) : String :=
  match oc with
  | some c =>
    if c = "" then ""
    else
      let val := rowGetD cols row c
      if isna val ∨ eqEmptyStr val then ""
      else pyStrip (pyStr val)
  | Option.none => ""

/-- Record built from one kept row: one trimmed string per logical field,
empty for blank, missing, or unresolved cells. -/
def buildRecord (cols : List String) (found : List (String × Option String))
    (row : List Value) : List (String × String) :=
  found.map (fun p => (p.1, buildField cols row p.2))

/-- Model of `extraer_datos_excel` (src/utils/excel_reader.py): ordered record
list plus the column-resolution report. -/
def extraer_datos_excel (cols : List String) (rows : List (List Value))
    (cfg : List (String × List String)) :
    List (List (String × String)) × List (String × Option String) :=
  let found := resolveColumns cols cfg
  (rows.foldr (fun row acc =>
      if skipRow cols found row then acc else buildRecord cols found row :: acc) [],
   found)

/-! ## Per-pallet aggregator (`calcular_pesos_por_pallet`) -/

/-- Record produced by the record extractor: string value per logical field. -/
def Registro := List (String × String)

/-- Field access `reg.get(key, '')` on a record. -/
def regGet (reg : Registro) (k : String) : String :=
  (List.lookup k reg).getD ""

/-- Coerced lot weight of a record: `parse_float(reg.get('peso_lote', 0))`.
Record fields are strings, so `parse_float` takes its stringify branch and
returns `PFloat.num` of exactly `parse_float_str` (see `parse_float_str_case`);
a missing field passes the int default `0`, which coerces to `0.0`. -/
def pesoLote (reg : Registro) : PyF :=
  match List.lookup "peso_lote" reg with
  | some s => parse_float_str s PyF.zero
  | Option.none => ⟨0, 0⟩

/-- Coerced cumulative weight of a record (`peso_acumulado`). -/
def pesoAcumulado (reg : Registro) : PyF :=
  match List.lookup "peso_acumulado" reg with
  | some s => parse_float_str s PyF.zero
  | Option.none => ⟨0, 0⟩

/-- One step of the aggregation loop: add a record's weights to its pallet's
running sums, creating the pallet entry on first sight (dict insertion order
is kept by appending). -/
def palletStep (acc : List (String × PyF × PyF)) (reg : Registro) :
    List (String × PyF × PyF) :=
  let pallet := regGet reg "numero_pallet"
  if pallet = "" then acc
  else if (List.lookup pallet acc).isSome then
    acc.map (fun p =>
      if p.1 = pallet then (p.1, p.2.1 + pesoLote reg, p.2.2 + pesoAcumulado reg) else p)
  else acc ++ [(pallet, pesoLote reg, pesoAcumulado reg)]

/-- Model of `calcular_pesos_por_pallet` (src/utils/pdf_generator.py): the
insertion-ordered mapping pallet → (net-weight sum, gross-weight sum). -/
def calcular_pesos_por_pallet (registros : List Registro) : List (String × PyF × PyF) :=
  registros.foldl palletStep []

/-! ## Weight list formatting (`formatear_lista_pesos`) -/

/-- Python `str.isdigit()` restricted to ASCII: nonempty and all digits. -/
def isDigitStr (s : String) : Bool :=
  ¬ s.data.isEmpty && s.data.all Char.isDigit

/-- Sort key `int(x) if x.isdigit() else 0` of the pallet ordering. -/
def palletRank (s : String) : Nat :=
  if isDigitStr s then digitsVal s.data else 0

/-- Rank comparison used for the pallet sort. -/
def rankLe (a b : String) : Prop :=
  palletRank a ≤ palletRank b

instance : DecidableRel rankLe := fun _ _ => Nat.decLe _ _

/-- Model of `sorted(keys, key=...)`: Python's sort is stable, and so is
`List.insertionSort` (an earlier element is inserted before a later one of
equal rank). -/
def pallets_ordenados (pesos : List (String × PyF × PyF)) : List String :=
  List.insertionSort rankLe (pesos.map (fun p => p.1))

/-- Rounding half-to-even of `x / d` for `d > 0`, on integers. -/
def rhe (x d : Int) : Int :=
  let f := x.ediv d
  let r2 := 2 * x.emod d
  if r2 < d then f else if d < r2 then f + 1 else if f.emod 2 = 0 then f else f + 1

/-- Model of the Python format `f"{x:.2f}"` on an idealized float: round the
exact value to 2 decimal places (ties to even) and render with exactly two
fraction digits. -/
def fmt2 (a : PyF) : String :=
  let n := rhe (100 * a.m) (10 ^ a.s)
  (if n < 0 then "-" else "") ++ natRepr (n.natAbs / 100) ++ "." ++ pad2 (n.natAbs % 100)

/-- Net-weight sum of one pallet in the aggregate mapping. -/
def netOf (pesos : List (String × PyF × PyF)) (k : String) : PyF :=
  ((List.lookup k pesos).map (fun p => p.1)).getD PyF.zero

/-- Gross-weight sum of one pallet in the aggregate mapping. -/
def grossOf (pesos : List (String × PyF × PyF)) (k : String) : PyF :=
  ((List.lookup k pesos).map (fun p => p.2)).getD PyF.zero

/-- Model of `formatear_lista_pesos` (src/utils/pdf_generator.py): the two
display-ordered lists of formatted sums. -/
def formatear_lista_pesos (pesos : List (String × PyF × PyF)) :
    List String × List String :=
  ((pallets_ordenados pesos).map (fun k => fmt2 (netOf pesos k)),
   (pallets_ordenados pesos).map (fun k => fmt2 (grossOf pesos k)))

/-! ## Calculations-sheet extractor (`leer_hoja_calculos`) -/

/-- Calculations result mapping, with its three defaulted fields. -/
structure CalcResult where
  net_weight : String
  gross_weight : String
  dimensions : String
deriving DecidableEq, Repr

/-- Mapping with every field at its empty-string default. -/
def calcDefault : CalcResult := ⟨"", "", ""⟩

/-- Strategy configuration of the calculations extractor: the `metodo` key,
per-field fixed-cell coordinates (`None` for an absent/empty sub-dict), and
per-field keyword lists for the search strategy. -/
structure CalcConfig where
  metodo : Option String
  peso_neto : Option (Nat × Nat)
  peso_bruto : Option (Nat × Nat)
  dimensiones : Option (Nat × Nat)
  keywords : List (String × List String)

/-- Fixed-cell read of one field: `str(df.iloc[fila, col]).strip()` guarded by
`fila < len(df) and col < len(df.columns)`; out-of-range coordinates leave
the field untouched. -/
def fixedCellRead (rows : List (List Value)) (w : Nat) (coord : Option (Nat × Nat))
    (old : String) : String :=
  match coord with
  | Option.none => old
  | some (fila, col) =>
    if fila < rows.length ∧ col < w then
      pyStrip (pyStr ((rows.getD fila []).getD col Value.none))
    else old

/-- Keyword-adjacency search of `buscar_valor_por_keyword` at one matching
cell: prefer the cell to the right, else the cell below; `none` (continue
scanning) when neither exists. -/
def adjacentValue (rows : List (List Value)) (i j : Nat) : Option String :=
  let row := rows.getD i []
  let right := row.getD (j + 1) Value.none
  if j + 1 < row.length ∧ ¬ isna right then some (pyStrip (pyStr right))
  else
    let below := (rows.getD (i + 1) []).getD j Value.none
    if i + 1 < rows.length ∧ ¬ isna below then some (pyStrip (pyStr below))
    else Option.none

/-- Scan of one keyword over every cell of the grid, in row-major order. -/
def scanKeyword (rows : List (List Value)) (kw : String) : Option String :=
  rows.enum.findSome? (fun p =>
    p.2.enum.findSome? (fun q =>
      if ¬ isna q.2 ∧ strContains (lowerStr (pyStr q.2)) (lowerStr kw) then
        adjacentValue rows p.1 q.1
      else Option.none))

/-- Model of `buscar_valor_por_keyword` (src/utils/excel_reader.py). -/
def buscar_valor_por_keyword (rows : List (List Value)) (kws : List String) : String :=
  (kws.findSome? (scanKeyword rows)).getD ""

/-- Field update `resultado[campo] = valor` for the three modeled fields. -/
def setCalcField (r : CalcResult) (campo valor : String) : CalcResult :=
  if campo = "net_weight" then { r with net_weight := valor }
  else if campo = "gross_weight" then { r with gross_weight := valor }
  else if campo = "dimensions" then { r with dimensions := valor }
  else r

/-- Model of `leer_hoja_calculos` (src/utils/excel_reader.py).  The sheet
argument is `none` when loading the sheet raises; the surrounding
`try/except` turns that into the all-defaults mapping.  With the in-model
strategies no later step can raise, so the caught-exception path is exactly
the load failure. -/
def leer_hoja_calculos (sheet : Option (List (List Value))) (cfg : CalcConfig) :
    CalcResult :=
  match sheet with
  | Option.none => calcDefault
  | some g =>
    let rows := padGrid g
    let w := gridWidth g
    let metodo := cfg.metodo.getD "busqueda"
    if metodo = "celda_fija" then
      let r1 := { calcDefault with net_weight := fixedCellRead rows w cfg.peso_neto "" }
      let r2 := { r1 with gross_weight := fixedCellRead rows w cfg.peso_bruto "" }
      { r2 with dimensions := fixedCellRead rows w cfg.dimensiones "" }
    else if metodo = "busqueda" then
      cfg.keywords.foldl (fun r p =>
        let valor := buscar_valor_por_keyword rows p.2
        if valor ≠ "" then setCalcField r p.1 valor else r) calcDefault
    else calcDefault

/-! ## General helper lemmas -/

theorem pyStrip_data (s : String) :
    (pyStrip s).data = List.rdropWhile Char.isWhitespace (s.data.dropWhile Char.isWhitespace) := by
  simp [pyStrip, dropWS, List.rdropWhile]

/-- Helper: a nonempty prefix of a list unchanged by `dropWhile` is itself
unchanged by `dropWhile`. -/
theorem dropWhile_of_prefix_fixed {α : Type} {p : α → Bool} {d t A : List α}
    (ht : d ++ t = A) (hA : A.dropWhile p = A) (hd : d ≠ []) : d.dropWhile p = d := by
  cases d with
  | nil => exact absurd rfl hd
  | cons c d' =>
    cases A with
    | nil => simp at ht
    | cons a A' =>
      have hc : c = a := by
        have := congrArg (fun l => l.head?) ht
        simpa using this
      subst hc
      rw [List.dropWhile_cons] at hA ⊢
      by_cases hp : p c
      · simp only [hp, if_true] at hA
        have hlen := congrArg List.length hA
        have hle := (List.dropWhile_sublist (l := A') p).length_le
        simp at hlen
        omega
      · simp [hp]

theorem pyStrip_idem (s : String) : pyStrip (pyStrip s) = pyStrip s := by
  apply String.ext
  rw [pyStrip_data, pyStrip_data]
  obtain ⟨t, ht⟩ := List.rdropWhile_prefix Char.isWhitespace
    (l := s.data.dropWhile Char.isWhitespace)
  have h1 : (List.rdropWhile Char.isWhitespace
      (s.data.dropWhile Char.isWhitespace)).dropWhile Char.isWhitespace =
      List.rdropWhile Char.isWhitespace (s.data.dropWhile Char.isWhitespace) := by
    rcases eq_or_ne (List.rdropWhile Char.isWhitespace
        (s.data.dropWhile Char.isWhitespace)) [] with h | h
    · rw [h]; rfl
    · exact dropWhile_of_prefix_fixed ht (List.dropWhile_idempotent _ _) h
  rw [h1, List.rdropWhile_idempotent]

/-- Fold with a skip test equals filter-then-map; this is the shape of the
record-extraction loop. -/
theorem foldr_skip_eq_filter_map {α β : Type} (p : α → Bool) (f : α → β) (l : List α) :
    l.foldr (fun x acc => if p x then acc else f x :: acc) [] =
      (l.filter (fun x => ¬ p x)).map f := by
  induction l with
  | nil => rfl
  | cons h t ih =>
    by_cases hp : p h <;> simp [List.filter_cons, hp, ih]

/-! ## C7: safe numeric coercion -/

/-- C7 code-bug exhibit: `pdf_generator.parse_float` has no `pd.isna` guard,
so the float `nan` — the codebase's own marker for a null cell — satisfies
the leading `isinstance(value, (int, float))` check and `float(nan) = nan`
is returned instead of the supplied default `0.0`.  By contrast `parse_int`
does return the default there (`pd.isna` guard in the excel_reader copy;
`int(nan)` raising into the `except` in the pdf_generator copy). -/
theorem parse_float_nan_bug :
    parse_float Value.nan ⟨0, 0⟩ = PFloat.nan ∧
    PFloat.nan ≠ PFloat.num ⟨0, 0⟩ ∧
    parse_int Value.nan 0 = 0 := by
  decide

/-- Supporting facts about the safe numeric coercions, away from the `nan`
slip exhibited by `parse_float_nan_bug`: `None` and `nan` input returns the
default from `parse_int`, `None` input returns the default from
`parse_float` (via the unparseable text `"None"`), whitespace-only or empty
strings and unparseable strings return the default from both, and
`" 1,234 "` (thousands-separator comma, surrounding whitespace) parses to
`1234` in both. -/
theorem parse_coercion_safe (d : PyF) (di : Int) (s : String) :
    parse_int Value.none di = di ∧
    parse_int Value.nan di = di ∧
    parse_float Value.none d = PFloat.num d ∧
    (pyStrip s = "" → parse_int (.str s) di = di ∧
      parse_float (.str s) d = PFloat.num d) ∧
    (pyFloatOfStr (pyClean s) = Option.none →
      parse_int (.str s) di = di ∧ parse_float (.str s) d = PFloat.num d) ∧
    parse_int (.str " 1,234 ") di = 1234 ∧
    parse_float (.str " 1,234 ") d = PFloat.num ⟨1234, 0⟩ := by
  refine ⟨rfl, rfl, ?_, ?_, ?_, ?_, ?_⟩
  · have hc : pyClean "None" = "None" := by decide
    have hp : pyFloatOfStr "None" = Option.none := by decide
    show PFloat.num (parse_float_str "None" d) = PFloat.num d
    simp [parse_float_str, hc, hp]
  · intro h
    have hc : pyClean s = "" := by
      simp [pyClean, h, removeAllChar]
    rw [parse_float_str_case]
    simp [parse_int, parse_float_str, hc]
  · intro h
    rw [parse_float_str_case]
    by_cases hc : pyClean s = ""
    · simp [parse_int, parse_float_str, hc]
    · simp [parse_int, parse_float_str, hc, h]
  · have hc : pyClean " 1,234 " = "1234" := by decide
    have hp : pyFloatOfStr "1234" = some ⟨1234, 0⟩ := by decide
    simp [parse_int, hc, hp]
    decide
  · have hc : pyClean " 1,234 " = "1234" := by decide
    have hp : pyFloatOfStr "1234" = some ⟨1234, 0⟩ := by decide
    rw [parse_float_str_case]
    simp [parse_float_str, hc, hp]

/-- Concrete instances of `parse_coercion_safe`. -/
theorem parse_coercion_safe_witness :
    parse_int (.str "   ") 7 = 7 ∧
    parse_float (.str "abc") ⟨5, 0⟩ = PFloat.num ⟨5, 0⟩ := by
  refine ⟨((parse_coercion_safe ⟨5, 0⟩ 7 "   ").2.2.2.1 (by decide)).1,
    ((parse_coercion_safe ⟨5, 0⟩ 7 "abc").2.2.2.2.1 (by decide)).2⟩

/-! ## C10: the integer coercion truncates toward zero -/

/-- C10: on non-integral decimal input the integer coercion truncates toward
zero rather than rounding: `parse_int("3.9") = 3` and `parse_int(-2.7) = -2`,
for any defaults. -/
theorem parse_int_truncates_toward_zero (di dj : Int) :
    parse_int (.str "3.9") di = 3 ∧ parse_int (.float ⟨-27, 1⟩) dj = -2 := by
  constructor
  · have hc : pyClean "3.9" = "3.9" := by decide
    have hp : pyFloatOfStr "3.9" = some ⟨39, 1⟩ := by decide
    simp [parse_int, hc, hp]
    decide
  · simp [parse_int]
    decide

/-! ## C9: the calculations-sheet extractor is best-effort -/

/-- C9: the calculations extractor never raises; a failed sheet load degrades
the whole mapping to its empty-string defaults, and under the fixed-cell
strategy a field whose coordinates are out of range of the loaded grid — or
whose coordinate entry is absent — is left at its empty-string default. -/
theorem leer_hoja_calculos_best_effort (cfg : CalcConfig) (g : List (List Value))
    (f c : Nat) :
    leer_hoja_calculos Option.none cfg = calcDefault ∧
    (cfg.metodo = some "celda_fija" →
      ((cfg.peso_neto = some (f, c) → ¬ (f < g.length ∧ c < gridWidth g) →
          (leer_hoja_calculos (some g) cfg).net_weight = "") ∧
        (cfg.peso_bruto = some (f, c) → ¬ (f < g.length ∧ c < gridWidth g) →
          (leer_hoja_calculos (some g) cfg).gross_weight = "") ∧
        (cfg.dimensiones = some (f, c) → ¬ (f < g.length ∧ c < gridWidth g) →
          (leer_hoja_calculos (some g) cfg).dimensions = "") ∧
        (cfg.peso_neto = Option.none → (leer_hoja_calculos (some g) cfg).net_weight = "") ∧
        (cfg.peso_bruto = Option.none → (leer_hoja_calculos (some g) cfg).gross_weight = "") ∧
        (cfg.dimensiones = Option.none → (leer_hoja_calculos (some g) cfg).dimensions = ""))) := by
  have hlen : (padGrid g).length = g.length := by simp [padGrid]
  refine ⟨rfl, fun hm => ⟨?_, ?_, ?_, ?_, ?_, ?_⟩⟩ <;>
    intro h1 <;> try intro h2
  · simp [leer_hoja_calculos, hm, h1, fixedCellRead, calcDefault, hlen, h2]
  · simp [leer_hoja_calculos, hm, h1, fixedCellRead, calcDefault, hlen, h2]
  · simp [leer_hoja_calculos, hm, h1, fixedCellRead, calcDefault, hlen, h2]
  · simp [leer_hoja_calculos, hm, h1, fixedCellRead, calcDefault]
  · simp [leer_hoja_calculos, hm, h1, fixedCellRead, calcDefault]
  · simp [leer_hoja_calculos, hm, h1, fixedCellRead, calcDefault]

/-- Witness for C9 at concrete inputs: a 1×1 grid with every coordinate out
of range. -/
theorem leer_hoja_calculos_best_effort_witness :
    leer_hoja_calculos (some [[Value.str "7.5"]])
      ⟨some "celda_fija", some (5, 0), some (5, 0), some (5, 0), []⟩ = calcDefault := by
  have h := leer_hoja_calculos_best_effort
    ⟨some "celda_fija", some (5, 0), some (5, 0), some (5, 0), []⟩ [[Value.str "7.5"]] 5 0
  have h2 := h.2 rfl
  have hb : ¬ ((5:Nat) < ([[Value.str "7.5"]] : List (List Value)).length ∧
      (0:Nat) < gridWidth [[Value.str "7.5"]]) := by decide
  have e1 := h2.1 rfl hb
  have e2 := h2.2.1 rfl hb
  have e3 := h2.2.2.1 rfl hb
  cases hres : leer_hoja_calculos (some [[Value.str "7.5"]])
      ⟨some "celda_fija", some (5, 0), some (5, 0), some (5, 0), []⟩ with
  | mk a b c =>
    rw [hres] at e1 e2 e3
    simp only at e1 e2 e3
    simp [calcDefault, e1, e2, e3]

/-! ## C5: column resolver -/

/-- C5 counterexample: the claim's match predicate — lower-cased alias
contained in the lower-cased column label or vice versa, with no trimming —
rejects the pair (`"ab "`, `"zab"`), yet `find_column` resolves that column,
because the code also strips the column label before comparing. -/
theorem find_column_counterexample_strip :
    find_column ["ab "] ["zab"] = some "ab " ∧
    (strContains (lowerStr "ab ") (lowerStr "zab") ||
      strContains (lowerStr "zab") (lowerStr "ab ")) = false := by
  decide

/-- C5 (amended): `find_column` returns the first column in table order some
alias of which satisfies case-insensitive bidirectional containment against
the lower-cased and trimmed column label (`aliasMatch`), returns the
not-found marker when no column/alias pair matches, is deterministic, and
resolves `["n. de lote","lote"]` against the header `"N LOTE"`. -/
theorem find_column_first_match (cols aliases : List String) :
    find_column cols aliases = find_column cols aliases ∧
    (find_column cols aliases = Option.none ↔
      ∀ c ∈ cols, matchesAliases aliases c = false) ∧
    (∀ c, find_column cols aliases = some c →
      matchesAliases aliases c = true ∧
      ∃ pre post, cols = pre ++ c :: post ∧
        ∀ x ∈ pre, matchesAliases aliases x = false) ∧
    find_column ["N LOTE"] ["n. de lote", "lote"] = some "N LOTE" := by
  refine ⟨rfl, ?_, ?_, by decide⟩
  · rw [find_column, List.find?_eq_none]
    constructor
    · intro h c hc
      have := h c hc
      simpa using this
    · intro h c hc
      simp [h c hc]
  · intro c h
    rw [find_column, List.find?_eq_some] at h
    obtain ⟨hp, pre, post, he, hpre⟩ := h
    exact ⟨hp, pre, post, he, fun x hx => by simpa using hpre x hx⟩

/-- Witness for C5 at the scenario-D input. -/
theorem find_column_first_match_witness :
    matchesAliases ["n. de lote", "lote"] "N LOTE" = true :=
  ((find_column_first_match ["N LOTE"] ["n. de lote", "lote"]).2.2.1 "N LOTE" (by decide)).1

/-! ## C4: record extractor -/

/-- C4: every emitted record has exactly the field set of the alias map (in
configuration order), each value a trimmed string with `""` for blank,
missing, or unresolved cells; a row is skipped exactly when the pallet and
quantity fields both resolved to real (truthy) columns and both cells are
absent; the output is the in-order image of the non-skipped rows, so its
length is at most the row count; and a row with absent pallet cell but
quantity `"5"` is retained with pallet field `""` while the all-absent row
is dropped. -/
theorem extraer_datos_excel_records (cols : List String) (rows : List (List Value))
    (cfg : List (String × List String)) :
    (extraer_datos_excel cols rows cfg).1 =
      (rows.filter (fun r => ¬ skipRow cols (resolveColumns cols cfg) r)).map
        (buildRecord cols (resolveColumns cols cfg)) ∧
    (extraer_datos_excel cols rows cfg).1.length ≤ rows.length ∧
    (∀ reg ∈ (extraer_datos_excel cols rows cfg).1,
      reg.map Prod.fst = cfg.map Prod.fst) ∧
    (∀ reg ∈ (extraer_datos_excel cols rows cfg).1, ∀ p ∈ reg, pyStrip p.2 = p.2) ∧
    (∀ row, skipRow cols (resolveColumns cols cfg) row = true ↔
      (∃ cp, resolvedCol (resolveColumns cols cfg) "numero_pallet" = some cp ∧ cp ≠ "" ∧
        isna (rowGet cols row cp) = true) ∧
      (∃ cc, resolvedCol (resolveColumns cols cfg) "cantidad" = some cc ∧ cc ≠ "" ∧
        isna (rowGet cols row cc) = true)) ∧
    (extraer_datos_excel ["pallet", "cantidad"] [[.none, .str "5"], [.none, .none]]
      [("numero_pallet", ["pallet"]), ("cantidad", ["cantidad"])]).1 =
      [[("numero_pallet", ""), ("cantidad", "5")]] := by
  have hmain : (extraer_datos_excel cols rows cfg).1 =
      (rows.filter (fun r => ¬ skipRow cols (resolveColumns cols cfg) r)).map
        (buildRecord cols (resolveColumns cols cfg)) :=
    foldr_skip_eq_filter_map _ _ rows
  refine ⟨hmain, ?_, ?_, ?_, ?_, by decide⟩
  · rw [hmain, List.length_map]
    exact List.length_filter_le _ rows
  · intro reg hreg
    rw [hmain] at hreg
    obtain ⟨row, _, rfl⟩ := List.mem_map.mp hreg
    rw [buildRecord, List.map_map, resolveColumns, List.map_map]
    apply List.map_congr_left
    intro p _
    rfl
  · intro reg hreg p hp
    rw [hmain] at hreg
    obtain ⟨row, _, rfl⟩ := List.mem_map.mp hreg
    rw [buildRecord] at hp
    obtain ⟨q, _, hq⟩ := List.mem_map.mp hp
    have hval : p.2 = buildField cols row q.2 := by rw [← hq]
    rw [hval]
    rcases q.2 with _ | c
    · rfl
    · rw [buildField]
      by_cases hc : c = ""
      · simp [hc]
        decide
      · by_cases hv : isna (rowGetD cols row c) ∨ eqEmptyStr (rowGetD cols row c)
        · simp [hc, hv]
          decide
        · simp [hc, hv]
          exact pyStrip_idem _
  · intro row
    rw [skipRow]
    cases hp : resolvedCol (resolveColumns cols cfg) "numero_pallet" with
    | none => simp [truthyO, hp]
    | some cp =>
      cases hc : resolvedCol (resolveColumns cols cfg) "cantidad" with
      | none => simp [truthyO, hp, hc]
      | some cc =>
        by_cases hcp : cp = "" <;> by_cases hcc : cc = "" <;>
          simp [truthyO, hp, hc, hcp, hcc]

/-- Witness for C4 at the scenario-E input. -/
theorem extraer_datos_excel_records_witness :
    List.map Prod.fst [("numero_pallet", ""), ("cantidad", "5")] =
      ["numero_pallet", "cantidad"] := by
  have h := (extraer_datos_excel_records ["pallet", "cantidad"]
    [[.none, .str "5"], [.none, .none]]
    [("numero_pallet", ["pallet"]), ("cantidad", ["cantidad"])])
  have hfields := h.2.2.1
  rw [h.2.2.2.2.2] at hfields
  have h2 := hfields [("numero_pallet", ""), ("cantidad", "5")] (by decide)
  exact h2.trans (by decide)

/-! ## C6: per-pallet aggregation preserves the total net weight -/

/-- Pallet keys of the aggregate mapping, in insertion order. -/
def palletKeys (l : List (String × PyF × PyF)) : List String :=
  l.map (fun p => p.1)

/-- Total of the per-pallet net-weight sums, as an exact rational. -/
def netSum (l : List (String × PyF × PyF)) : ℚ :=
  (l.map (fun p => p.2.1.toRat)).sum

theorem bump_map_id (pallet : String) (reg : Registro) :
    ∀ (t : List (String × PyF × PyF)), (∀ p ∈ t, p.1 ≠ pallet) →
      t.map (fun p => if p.1 = pallet then
        (p.1, p.2.1 + pesoLote reg, p.2.2 + pesoAcumulado reg) else p) = t := by
  intro t h
  induction t with
  | nil => rfl
  | cons hd tl ih =>
    rw [List.map_cons, if_neg (h hd (List.mem_cons_self _ _)),
      ih (fun p hp => h p (List.mem_cons_of_mem _ hp))]

theorem palletKeys_palletStep (acc : List (String × PyF × PyF)) (reg : Registro)
    (h : (palletKeys acc).Nodup) : (palletKeys (palletStep acc reg)).Nodup := by
  rw [palletStep]
  by_cases h0 : regGet reg "numero_pallet" = ""
  · simpa [h0] using h
  · rw [if_neg h0]
    by_cases h1 : (List.lookup (regGet reg "numero_pallet") acc).isSome
    · rw [if_pos h1]
      have heq : palletKeys (acc.map (fun p =>
          if p.1 = regGet reg "numero_pallet" then
            (p.1, p.2.1 + pesoLote reg, p.2.2 + pesoAcumulado reg) else p)) =
          palletKeys acc := by
        rw [palletKeys, List.map_map]
        apply List.map_congr_left
        intro p _
        by_cases hp : p.1 = regGet reg "numero_pallet" <;> simp [hp]
      rw [heq]
      exact h
    · rw [if_neg h1]
      have hnot : regGet reg "numero_pallet" ∉ palletKeys acc := by
        intro hmem
        apply h1
        rw [List.lookup_isSome_iff]
        obtain ⟨p, hp, hp1⟩ := List.mem_map.mp hmem
        exact ⟨p, hp, by simp [hp1]⟩
      rw [palletKeys, List.map_append]
      simp only [List.map_cons, List.map_nil]
      rw [List.nodup_append]
      refine ⟨h, List.nodup_singleton _, ?_⟩
      intro k hk
      simp only [List.mem_singleton]
      intro hkp
      subst hkp
      exact hnot hk

theorem netSum_map_bump {acc : List (String × PyF × PyF)} {pallet : String}
    (reg : Registro) (hnd : (palletKeys acc).Nodup)
    (hmem : (List.lookup pallet acc).isSome) :
    netSum (acc.map (fun p =>
      if p.1 = pallet then (p.1, p.2.1 + pesoLote reg, p.2.2 + pesoAcumulado reg) else p)) =
      netSum acc + (pesoLote reg).toRat := by
  induction acc with
  | nil => simp [List.lookup] at hmem
  | cons hd t ih =>
    obtain ⟨k1, w1, w2⟩ := hd
    rw [palletKeys, List.map_cons, List.nodup_cons] at hnd
    by_cases hh : k1 = pallet
    · have ht := bump_map_id pallet reg t (fun p hp he =>
        hnd.1 (List.mem_map.mpr ⟨p, hp, he.trans hh.symm⟩))
      rw [List.map_cons, if_pos (show ((k1 : String), w1, w2).1 = pallet from hh), ht]
      simp only [netSum, List.map_cons, List.sum_cons]
      rw [PyF.toRat_add]
      ring
    · have hbeq : (pallet == k1) = false := by
        simp only [beq_eq_false_iff_ne, ne_eq]
        exact fun e => hh e.symm
      have hmem' : (List.lookup pallet t).isSome := by
        simp only [List.lookup_cons, hbeq] at hmem
        exact hmem
      rw [List.map_cons, if_neg (show ¬ ((k1 : String), w1, w2).1 = pallet from hh)]
      simp only [netSum, List.map_cons, List.sum_cons]
      have hrec := ih hnd.2 hmem'
      simp only [netSum] at hrec
      rw [hrec]
      ring

theorem netSum_palletStep (acc : List (String × PyF × PyF)) (reg : Registro)
    (hnd : (palletKeys acc).Nodup) :
    netSum (palletStep acc reg) = netSum acc +
      (if regGet reg "numero_pallet" = "" then 0 else (pesoLote reg).toRat) := by
  rw [palletStep]
  by_cases h0 : regGet reg "numero_pallet" = ""
  · simp [h0]
  · rw [if_neg h0, if_neg h0]
    by_cases h1 : (List.lookup (regGet reg "numero_pallet") acc).isSome
    · rw [if_pos h1]
      exact netSum_map_bump reg hnd h1
    · rw [if_neg h1]
      simp [netSum]

theorem calcular_foldl_netSum (regs : List Registro) :
    ∀ acc, (palletKeys acc).Nodup →
      netSum (regs.foldl palletStep acc) = netSum acc +
        ((regs.filter (fun r => regGet r "numero_pallet" ≠ "")).map
          (fun r => (pesoLote r).toRat)).sum := by
  induction regs with
  | nil => intro acc _; simp
  | cons r t ih =>
    intro acc hnd
    rw [List.foldl_cons]
    rw [ih (palletStep acc r) (palletKeys_palletStep acc r hnd)]
    rw [netSum_palletStep acc r hnd]
    by_cases h0 : regGet r "numero_pallet" = ""
    · simp [List.filter_cons, h0]
    · simp [List.filter_cons, h0]
      ring

/-- C6: the sum over all pallets of the aggregator's net-weight sums equals
the sum of the coerced `peso_lote` fields over exactly the records whose
pallet identifier is non-empty (as exact rationals, floats being idealized
as exact decimals); records with empty pallet identifier contribute nothing,
and a malformed weight cell coerces to `0.0` and never aborts aggregation. -/
theorem calcular_pesos_net_total (regs : List Registro) (reg : Registro) (s : String) :
    netSum (calcular_pesos_por_pallet regs) =
      ((regs.filter (fun r => regGet r "numero_pallet" ≠ "")).map
        (fun r => (pesoLote r).toRat)).sum ∧
    (List.lookup "peso_lote" reg = some s → pyFloatOfStr (pyClean s) = Option.none →
      pesoLote reg = PyF.zero) := by
  constructor
  · have := calcular_foldl_netSum regs [] (by simp [palletKeys])
    simpa [calcular_pesos_por_pallet, netSum] using this
  · intro h1 h2
    rw [pesoLote, h1]
    by_cases hc : pyClean s = "" <;> simp [parse_float_str, PyF.zero, hc, h2]

/-- Witness for C6: a record with malformed weight text coerces to zero. -/
theorem calcular_pesos_net_total_witness :
    pesoLote [("numero_pallet", "1"), ("peso_lote", "abc")] = PyF.zero :=
  (calcular_pesos_net_total [] [("numero_pallet", "1"), ("peso_lote", "abc")] "abc").2
    (by decide) (by decide)

/-! ## C8: weight-list formatting and pallet display order -/

instance : IsTotal String rankLe :=
  ⟨fun a b => Nat.le_total (palletRank a) (palletRank b)⟩

instance : IsTrans String rankLe :=
  ⟨fun _ _ _ hab hbc => Nat.le_trans hab hbc⟩

/-- C8 counterexample: with the aggregate mapping inserting pallet `"0"`
before pallet `"x"`, the display order keeps the numeric key `"0"` (rank 0)
before the non-numeric key `"x"` (also rank 0) — the stable sort preserves
insertion order on ties, so non-numeric keys do not in general sort before
numeric ones. -/
theorem pallets_ordenados_counterexample :
    pallets_ordenados [("0", ⟨1, 0⟩, ⟨1, 0⟩), ("x", ⟨2, 0⟩, ⟨2, 0⟩)] = ["0", "x"] ∧
    isDigitStr "0" = true ∧ isDigitStr "x" = false := by
  decide

theorem pad2_two_digits : ∀ k < 100, (pad2 k).data.length = 2 ∧
    ∀ c ∈ (pad2 k).data, c.isDigit := by
  decide

/-- C8 (amended): `formatear_lista_pesos` returns two lists of equal length
aligned to one pallet order — the keys stably sorted by rank (integer value
for an all-digit key, 0 otherwise), so a non-numeric key sorts before every
key of positive numeric value but ties with the key `"0"` in insertion
order — and each emitted sum is formatted with exactly two decimal places;
two records on pallet `"1"` with lot-weights `2.5` and `3.5` produce the
net-weight list `["6.00"]`. -/
theorem formatear_lista_pesos_ordered (pesos : List (String × PyF × PyF)) :
    (formatear_lista_pesos pesos).1.length = pesos.length ∧
    (formatear_lista_pesos pesos).2.length = pesos.length ∧
    (pallets_ordenados pesos).Perm (palletKeys pesos) ∧
    List.Pairwise rankLe (pallets_ordenados pesos) ∧
    (formatear_lista_pesos pesos).1 =
      (pallets_ordenados pesos).map (fun k => fmt2 (netOf pesos k)) ∧
    (∀ str0 ∈ (formatear_lista_pesos pesos).1, ∃ pre post : String,
      str0 = pre ++ "." ++ post ∧ post.data.length = 2 ∧
      (∀ c ∈ post.data, c.isDigit) ∧ (∀ c ∈ pre.data, c.isDigit ∨ c = '-')) ∧
    (formatear_lista_pesos (calcular_pesos_por_pallet
      [[("numero_pallet", "1"), ("peso_lote", "2.5")],
       [("numero_pallet", "1"), ("peso_lote", "3.5")]])).1 = ["6.00"] := by
  have hperm : (pallets_ordenados pesos).Perm (palletKeys pesos) := by
    rw [pallets_ordenados, palletKeys]
    exact List.perm_insertionSort _ _
  have hlen : (pallets_ordenados pesos).length = pesos.length := by
    rw [hperm.length_eq, palletKeys, List.length_map]
  refine ⟨?_, ?_, hperm, ?_, rfl, ?_, by decide⟩
  · rw [formatear_lista_pesos]
    simpa using hlen
  · rw [formatear_lista_pesos]
    simpa using hlen
  · exact List.sorted_insertionSort rankLe (pesos.map (fun p => p.1))
  · intro str0 hs
    rw [formatear_lista_pesos] at hs
    obtain ⟨k, _, rfl⟩ := List.mem_map.mp hs
    refine ⟨(if rhe (100 * (netOf pesos k).m) (10 ^ (netOf pesos k).s) < 0 then "-" else "") ++
      natRepr ((rhe (100 * (netOf pesos k).m) (10 ^ (netOf pesos k).s)).natAbs / 100),
      pad2 ((rhe (100 * (netOf pesos k).m) (10 ^ (netOf pesos k).s)).natAbs % 100), rfl,
      ?_, ?_, ?_⟩
    · exact (pad2_two_digits _ (Nat.mod_lt _ (by omega))).1
    · exact (pad2_two_digits _ (Nat.mod_lt _ (by omega))).2
    · intro c hc
      rw [String.data_append] at hc
      rcases List.mem_append.mp hc with h | h
      · right
        by_cases hsign : rhe (100 * (netOf pesos k).m) (10 ^ (netOf pesos k).s) < 0
        · rw [if_pos hsign] at h
          simp at h
          rw [h]
        · rw [if_neg hsign] at h
          simp at h
      · left
        exact natRepr_digits _ _ h

/-- Witness for C8 at the scenario-C output. -/
theorem formatear_lista_pesos_ordered_witness :
    ∃ pre post : String, "6.00" = pre ++ "." ++ post ∧ post.data.length = 2 ∧
      (∀ c ∈ post.data, c.isDigit) ∧ (∀ c ∈ pre.data, c.isDigit ∨ c = '-') := by
  have h := formatear_lista_pesos_ordered (calcular_pesos_por_pallet
    [[("numero_pallet", "1"), ("peso_lote", "2.5")],
     [("numero_pallet", "1"), ("peso_lote", "3.5")]])
  have hall := h.2.2.2.2.2.1
  rw [h.2.2.2.2.2.2] at hall
  exact hall "6.00" (by simp)

/-! ## C2: header-row selection -/

/-- Modelled from the claim's wording, for comparison only: the keyword set
the claim names is the English set, while the code scans for the Spanish
set `headerKeywords`. -/
def claimedHeaderKeywords : List String :=
  ["pallet", "lot", "date", "quantity", "boxes", "part"]

/-- Modelled from the claim's wording, for comparison only: first row of the
search window whose concatenated non-empty lower-cased cell text contains one
of the claim's keywords. -/
def claimedHeaderRow (g : List (List Value)) (buscar : Nat) : Option Nat :=
  (g.take buscar).findIdx? (fun row =>
    claimedHeaderKeywords.any (fun w => strContains (rowText row) w))

/-- C2 counterexample: on the grid `[["x"], ["date"], ["pallet"]]` the claim's
English keyword set selects row 1 (it contains "date"), but the code scans
for the Spanish keywords `pallet, lote, fecha, cantidad, cajas, parte` and
selects row 2. -/
theorem headerRowIdx_counterexample_keywords :
    headerRowIdx [[.str "x"], [.str "date"], [.str "pallet"]] 5 = 2 ∧
    claimedHeaderRow [[.str "x"], [.str "date"], [.str "pallet"]] 5 = some 1 := by
  decide

/-- C2 (amended): the Sheet Extractor selects as header row the first row
index in the search window whose concatenated non-empty lower-cased cell
text contains one of the keywords `pallet`, `lote`, `fecha`, `cantidad`,
`cajas`, `parte` as a substring, and selects row 0 when no row in the window
contains any of them; a grid whose rows 0–1 are title/blank and whose row 2
holds `["Pallet","Qty","Boxes"]` yields header row 2. -/
theorem headerRowIdx_first_keyword_row (g : List (List Value)) (buscar : Nat) :
    ((∃ h : headerRowIdx g buscar < (g.take buscar).length,
        rowHasHeaderKw ((g.take buscar).get ⟨headerRowIdx g buscar, h⟩) = true ∧
        ∀ j (hj : j < headerRowIdx g buscar),
          rowHasHeaderKw ((g.take buscar).get ⟨j, Nat.lt_trans hj h⟩) = false) ∨
      (headerRowIdx g buscar = 0 ∧ ∀ row ∈ g.take buscar, rowHasHeaderKw row = false)) ∧
    headerRowIdx [[.str "Packing List"], [.none, .none],
      [.str "Pallet", .str "Qty", .str "Boxes"]] 5 = 2 := by
  refine ⟨?_, by decide⟩
  rcases hf : (g.take buscar).findIdx? rowHasHeaderKw with _ | i
  · right
    have h0 : headerRowIdx g buscar = 0 := by
      rw [headerRowIdx, hf]
      rfl
    exact ⟨h0, List.findIdx?_eq_none_iff.mp hf⟩
  · left
    have h0 : headerRowIdx g buscar = i := by
      rw [headerRowIdx, hf]
      rfl
    rw [h0]
    obtain ⟨h, hp, hprev⟩ := List.findIdx?_eq_some_iff_getElem.mp hf
    refine ⟨h, ?_, ?_⟩
    · rw [List.get_eq_getElem]
      exact hp
    · intro j hj
      rw [List.get_eq_getElem]
      have := hprev j hj
      simpa using this

/-- Witness for C2 at the scenario-A grid. -/
theorem headerRowIdx_first_keyword_row_witness :
    rowHasHeaderKw (([[Value.str "Packing List"], [Value.none, Value.none],
      [Value.str "Pallet", Value.str "Qty", Value.str "Boxes"]].take 5).get
        ⟨2, by decide⟩) = true := by
  have h := (headerRowIdx_first_keyword_row [[Value.str "Packing List"],
    [Value.none, Value.none], [Value.str "Pallet", Value.str "Qty", Value.str "Boxes"]] 5)
  rcases h.1 with ⟨hlt, hkw, _⟩ | ⟨h0, _⟩
  · have hfin : (⟨headerRowIdx [[Value.str "Packing List"], [Value.none, Value.none],
        [Value.str "Pallet", Value.str "Qty", Value.str "Boxes"]] 5, hlt⟩ :
        Fin ((List.take 5 [[Value.str "Packing List"], [Value.none, Value.none],
          [Value.str "Pallet", Value.str "Qty", Value.str "Boxes"]]).length)) =
        ⟨2, by decide⟩ := Fin.ext h.2
    rw [hfin] at hkw
    exact hkw
  · exact absurd (h.2.symm.trans h0) (by decide)

/-! ## C1: stop-keyword truncation -/

/-- C1 code-bug exhibit: on a sheet whose data segment is
`["a"], [blank], [blank], ["TOTAL"], ["z"]` (with stop-keywords at their
defaults) the extractor returns the rows `["a"], ["TOTAL"], ["z"]` — the
stop row and even a row after it survive.  `dropna(how='all')` keeps the
original row labels (here 0, 3, 4), the scan finds the stop row at label 3,
and `df.iloc[:3]` then slices three rows positionally from the already
filtered frame.  The spec's truncation — every row at or beyond the first
stop row dropped — would return only `["a"]`. -/
theorem leer_hoja_excel_keeps_stop_row :
    leer_hoja_excel [[.str "pallet"], [.str "a"], [.none], [.none], [.str "TOTAL"], [.str "z"]]
      5 ["TOTAL GENERAL", "Total General", "TOTAL"] =
      (["pallet"], [[.str "a"], [.str "TOTAL"], [.str "z"]]) ∧
    rowHasStopKw ["TOTAL GENERAL", "Total General", "TOTAL"] [.str "TOTAL"] = true ∧
    rowHasStopKw ["TOTAL GENERAL", "Total General", "TOTAL"] [.str "a"] = false := by
  decide

/-! ## C3: clean header list -/

/-- C3 counterexample: when an original header label itself carries an
occurrence-counter shape, the repair rules can emit a duplicate — the header
row `["Lote","Lote_1","Lote"]` yields `["Lote","Lote_1","Lote_1"]`, which is
not duplicate-free. -/
theorem cleanHeaders_counterexample_collision :
    cleanHeaders [.str "Lote", .str "Lote_1", .str "Lote"] = ["Lote", "Lote_1", "Lote_1"] ∧
    ¬ (cleanHeaders [.str "Lote", .str "Lote_1", .str "Lote"]).Nodup := by
  decide

/-- Underscore-freedom of a label, the side condition under which the header
repair rules cannot collide. -/
def noUnder (s : String) : Prop :=
  '_' ∉ s.data

theorem natRepr_no_under (n : Nat) : '_' ∉ (natRepr n).data := by
  intro h
  have := natRepr_digits n _ h
  simp [Char.isDigit] at this

theorem suffix_data (s : String) (r : String) :
    (s ++ "_" ++ r).data = s.data ++ '_' :: r.data := by
  rw [String.data_append, String.data_append, List.append_assoc]
  rfl

theorem colvacia_data (r : String) :
    ("col_vacia_" ++ r).data = "col_vacia_".data ++ r.data :=
  String.data_append _ _

/-- First-underscore splitting is unique when the left parts are
underscore-free. -/
theorem under_split_unique : ∀ (s1 s2 r1 r2 : List Char), '_' ∉ s1 → '_' ∉ s2 →
    s1 ++ '_' :: r1 = s2 ++ '_' :: r2 → s1 = s2 ∧ r1 = r2 := by
  intro s1
  induction s1 with
  | nil =>
    intro s2 r1 r2 _ h2 he
    cases s2 with
    | nil => simpa using he
    | cons c t =>
      simp only [List.nil_append, List.cons_append, List.cons.injEq] at he
      exact absurd (by rw [he.1]; exact List.mem_cons_self _ _) h2
  | cons c t ih =>
    intro s2 r1 r2 h1 h2 he
    cases s2 with
    | nil =>
      simp only [List.cons_append, List.nil_append, List.cons.injEq] at he
      exact absurd (by rw [← he.1]; exact List.mem_cons_self _ _) h1
    | cons d u =>
      simp only [List.cons_append, List.cons.injEq] at he
      have hrec := ih u r1 r2 (fun hm => h1 (List.mem_cons_of_mem _ hm))
        (fun hm => h2 (List.mem_cons_of_mem _ hm)) he.2
      exact ⟨by rw [he.1, hrec.1], hrec.2⟩

/-- Discrimination: a suffixed label differs from every underscore-free
label. -/
theorem suffix_ne_bare (s r l : String) (hl : noUnder l) : s ++ "_" ++ r ≠ l := by
  intro he
  apply hl
  rw [← he, suffix_data]
  exact List.mem_append.mpr (Or.inr (List.mem_cons_self _ _))

/-- Discrimination: a placeholder label differs from every underscore-free
label. -/
theorem colvacia_ne_bare (r l : String) (hl : noUnder l) : "col_vacia_" ++ r ≠ l := by
  intro he
  apply hl
  rw [← he, colvacia_data]
  exact List.mem_append.mpr (Or.inl (by decide))

/-- Discrimination: placeholder labels with different indices differ. -/
theorem colvacia_inj {i j : Nat} (h : "col_vacia_" ++ natRepr i = "col_vacia_" ++ natRepr j) :
    i = j := by
  have hd := congrArg String.data h
  rw [colvacia_data, colvacia_data] at hd
  have := List.append_cancel_left hd
  exact natRepr_inj (String.ext this)

/-- Discrimination: a placeholder label differs from every suffixed label
with underscore-free base (they contain a different number of underscores). -/
theorem colvacia_ne_suffix (i k : Nat) (s : String) (hs : noUnder s) :
    "col_vacia_" ++ natRepr i ≠ s ++ "_" ++ natRepr k := by
  intro he
  have hd := congrArg (fun l => l.data.count '_') he
  simp only [colvacia_data, suffix_data, List.count_append, List.count_cons_self] at hd
  have h1 : List.count '_' "col_vacia_".data = 2 := by decide
  have h2 : List.count '_' (natRepr i).data = 0 :=
    List.count_eq_zero.mpr (natRepr_no_under i)
  have h3 : List.count '_' s.data = 0 := List.count_eq_zero.mpr hs
  have h4 : List.count '_' (natRepr k).data = 0 :=
    List.count_eq_zero.mpr (natRepr_no_under k)
  rw [h1, h2, h3, h4] at hd
  omega

/-- Discrimination: equal suffixed labels with underscore-free bases have
equal bases and equal counters. -/
theorem suffix_inj {s1 s2 : String} {k1 k2 : Nat} (h1 : noUnder s1) (h2 : noUnder s2)
    (he : s1 ++ "_" ++ natRepr k1 = s2 ++ "_" ++ natRepr k2) : s1 = s2 ∧ k1 = k2 := by
  have hd := congrArg String.data he
  rw [suffix_data, suffix_data] at hd
  have := under_split_unique s1.data s2.data (natRepr k1).data (natRepr k2).data h1 h2 hd
  exact ⟨String.ext this.1, natRepr_inj (String.ext this.2)⟩

theorem seenGet_cons_self (h : String) (v : Nat) (seen : List (String × Nat)) :
    seenGet ((h, v) :: seen) h = some v := by
  simp [seenGet]

theorem seenGet_cons_ne (h k : String) (v : Nat) (seen : List (String × Nat))
    (hne : k ≠ h) : seenGet ((h, v) :: seen) k = seenGet seen k := by
  simp [seenGet, hne]

theorem seenGet_seenBump_ne (k s : String) (v : Nat) (hne : s ≠ k) :
    ∀ seen, seenGet (seenBump seen k v) s = seenGet seen s := by
  intro seen
  induction seen with
  | nil => rfl
  | cons p t ih =>
    obtain ⟨k1, v1⟩ := p
    simp only [seenBump, List.map_cons] at ih ⊢
    by_cases hp : k1 = k
    · rw [if_pos hp]
      have hs1 : s ≠ k1 := fun e => hne (e.trans hp)
      rw [seenGet, seenGet, if_neg hs1, if_neg hs1]
      exact ih
    · rw [if_neg hp]
      by_cases hs1 : s = k1
      · rw [seenGet, seenGet, if_pos hs1, if_pos hs1]
      · rw [seenGet, seenGet, if_neg hs1, if_neg hs1]
        exact ih

theorem seenGet_seenBump_self (k : String) (v : Nat) :
    ∀ seen, (seenGet seen k).isSome → seenGet (seenBump seen k v) k = some v := by
  intro seen
  induction seen with
  | nil => intro h; simp [seenGet] at h
  | cons p t ih =>
    obtain ⟨k1, v1⟩ := p
    intro hh
    simp only [seenBump, List.map_cons]
    by_cases hp : k1 = k
    · rw [if_pos hp, seenGet, if_pos hp.symm]
    · rw [if_neg hp]
      have hk1 : k ≠ k1 := fun e => hp e.symm
      rw [seenGet, if_neg hk1]
      rw [seenGet, if_neg hk1] at hh
      exact ih hh

theorem seenGet_seenBump_none (k s : String) (v : Nat) (seen : List (String × Nat))
    (h : seenGet (seenBump seen k v) s = Option.none) : seenGet seen s = Option.none := by
  by_cases hs : s = k
  · subst hs
    cases hg : seenGet seen s with
    | none => rfl
    | some w =>
      rw [seenGet_seenBump_self s v seen (by rw [hg]; rfl)] at h
      exact absurd h (by simp)
  · rw [seenGet_seenBump_ne k s v hs seen] at h
    exact h

/-- Classification of a label emitted by the header-repair loop running with
position `i` and occurrence map `seen`: a placeholder for a column at or
after `i`, a suffixed duplicate whose counter exceeds every count the map
already holds for its base, or an original label not yet in the map. -/
def LabelSpec (i : Nat) (seen : List (String × Nat)) (l : String) : Prop :=
  (∃ j, i ≤ j ∧ l = "col_vacia_" ++ natRepr j) ∨
  (∃ s k, noUnder s ∧ l = s ++ "_" ++ natRepr k ∧ 1 ≤ k ∧
    ∀ k0, seenGet seen s = some k0 → k0 < k) ∨
  (noUnder l ∧ seenGet seen l = Option.none)

theorem cleanHeadersGo_spec :
    ∀ (t : List (Option String)) (i : Nat) (seen : List (String × Nat)),
      (∀ h : String, some h ∈ t → noUnder h) →
      (cleanHeadersGo t i seen).Nodup ∧
      ∀ l ∈ cleanHeadersGo t i seen, LabelSpec i seen l := by
  intro t
  induction t with
  | nil =>
    intro i seen _
    exact ⟨List.nodup_nil, fun l hl => absurd hl (List.not_mem_nil l)⟩
  | cons o t ih =>
    intro i seen Ht
    have Ht' : ∀ h : String, some h ∈ t → noUnder h :=
      fun h hm => Ht h (List.mem_cons_of_mem _ hm)
    cases o with
    | none =>
      obtain ⟨hnd, hspec⟩ := ih (i + 1) seen Ht'
      constructor
      · rw [show cleanHeadersGo (Option.none :: t) i seen =
          ("col_vacia_" ++ natRepr i) :: cleanHeadersGo t (i + 1) seen from rfl,
          List.nodup_cons]
        refine ⟨?_, hnd⟩
        intro hmem
        rcases hspec _ hmem with ⟨j, hj, he⟩ | ⟨s, k, hs, he, _, _⟩ | ⟨hl, _⟩
        · have := colvacia_inj he
          omega
        · exact colvacia_ne_suffix i k s hs he
        · exact colvacia_ne_bare (natRepr i) _ hl rfl
      · intro l hl
        rcases List.mem_cons.mp hl with rfl | hmem
        · exact Or.inl ⟨i, le_refl i, rfl⟩
        · rcases hspec l hmem with ⟨j, hj, he⟩ | hsuf | hbare
          · exact Or.inl ⟨j, by omega, he⟩
          · exact Or.inr (Or.inl hsuf)
          · exact Or.inr (Or.inr hbare)
    | some h =>
      have hnoU : noUnder h := Ht h (List.mem_cons_self _ _)
      cases hg : seenGet seen h with
      | none =>
        obtain ⟨hnd, hspec⟩ := ih (i + 1) ((h, 0) :: seen) Ht'
        have hstep : cleanHeadersGo (some h :: t) i seen =
            h :: cleanHeadersGo t (i + 1) ((h, 0) :: seen) := by
          rw [cleanHeadersGo, hg]
        constructor
        · rw [hstep, List.nodup_cons]
          refine ⟨?_, hnd⟩
          intro hmem
          rcases hspec _ hmem with ⟨j, _, he⟩ | ⟨s, k, hs, he, _, _⟩ | ⟨_, hb2⟩
          · exact colvacia_ne_bare (natRepr j) h hnoU he.symm
          · exact suffix_ne_bare s (natRepr k) h hnoU he.symm
          · rw [seenGet_cons_self] at hb2
            exact absurd hb2 (by simp)
        · rw [hstep]
          intro l hl
          rcases List.mem_cons.mp hl with rfl | hmem
          · exact Or.inr (Or.inr ⟨hnoU, hg⟩)
          · rcases hspec l hmem with ⟨j, hj, hje⟩ | ⟨s, k, hs, he, hk, hcond⟩ | ⟨hb1, hb2⟩
            · exact Or.inl ⟨j, by omega, hje⟩
            · refine Or.inr (Or.inl ⟨s, k, hs, he, hk, ?_⟩)
              intro k0 h0
              by_cases hsh : s = h
              · rw [hsh, hg] at h0
                exact absurd h0 (by simp)
              · exact hcond k0 (by rw [seenGet_cons_ne h s 0 seen hsh]; exact h0)
            · refine Or.inr (Or.inr ⟨hb1, ?_⟩)
              by_cases hlh : l = h
              · rw [hlh, seenGet_cons_self] at hb2
                exact absurd hb2 (by simp)
              · rw [seenGet_cons_ne h l 0 seen hlh] at hb2
                exact hb2
      | some k =>
        obtain ⟨hnd, hspec⟩ := ih (i + 1) (seenBump seen h (k + 1)) Ht'
        have hstep : cleanHeadersGo (some h :: t) i seen =
            (h ++ "_" ++ natRepr (k + 1)) ::
              cleanHeadersGo t (i + 1) (seenBump seen h (k + 1)) := by
          rw [cleanHeadersGo, hg]
        constructor
        · rw [hstep, List.nodup_cons]
          refine ⟨?_, hnd⟩
          intro hmem
          rcases hspec _ hmem with ⟨j, _, he⟩ | ⟨s, k2, hs, he, _, hcond⟩ | ⟨hb1, _⟩
          · exact colvacia_ne_suffix j (k + 1) h hnoU he.symm
          · obtain ⟨rfl, hk2⟩ := suffix_inj hnoU hs he
            have := hcond (k + 1)
              (seenGet_seenBump_self h (k + 1) seen (by rw [hg]; rfl))
            omega
          · exact suffix_ne_bare h (natRepr (k + 1)) _ hb1 rfl
        · rw [hstep]
          intro l hl
          rcases List.mem_cons.mp hl with rfl | hmem
          · refine Or.inr (Or.inl ⟨h, k + 1, hnoU, rfl, by omega, ?_⟩)
            intro k0 h0
            rw [hg] at h0
            have hki : k0 = k := (Option.some.inj h0).symm
            omega
          · rcases hspec l hmem with ⟨j, hj, hje⟩ | ⟨s, k2, hs, he, hk2, hcond⟩ | ⟨hb1, hb2⟩
            · exact Or.inl ⟨j, by omega, hje⟩
            · refine Or.inr (Or.inl ⟨s, k2, hs, he, hk2, ?_⟩)
              intro k0 h0
              by_cases hsh : s = h
              · have hk01 : k0 = k := by
                  rw [hsh, hg] at h0
                  exact (Option.some.inj h0).symm
                have := hcond (k + 1)
                  (by rw [hsh]; exact seenGet_seenBump_self h (k + 1) seen (by rw [hg]; rfl))
                omega
              · exact hcond k0
                  (by rw [seenGet_seenBump_ne h s (k + 1) hsh seen]; exact h0)
            · exact Or.inr (Or.inr ⟨hb1, seenGet_seenBump_none h l (k + 1) seen hb2⟩)

theorem cleanHeadersGo_length :
    ∀ (t : List (Option String)) (i : Nat) (seen : List (String × Nat)),
      (cleanHeadersGo t i seen).length = t.length := by
  intro t
  induction t with
  | nil => intro i seen; rfl
  | cons o t ih =>
    intro i seen
    cases o with
    | none => simp [cleanHeadersGo, ih]
    | some h =>
      cases hg : seenGet seen h with
      | none =>
        rw [show cleanHeadersGo (some h :: t) i seen =
          h :: cleanHeadersGo t (i + 1) ((h, 0) :: seen) from by rw [cleanHeadersGo, hg]]
        simp [ih]
      | some k =>
        rw [show cleanHeadersGo (some h :: t) i seen =
          (h ++ "_" ++ natRepr (k + 1)) ::
            cleanHeadersGo t (i + 1) (seenBump seen h (k + 1)) from by rw [cleanHeadersGo, hg]]
        simp [ih]

theorem colvacia_ne_empty (r : String) : "col_vacia_" ++ r ≠ "" := by
  intro he
  have hd := congrArg String.data he
  rw [colvacia_data] at hd
  exact absurd (List.append_eq_nil.mp hd).1 (by decide)

theorem suffix_ne_empty (s r : String) : s ++ "_" ++ r ≠ "" := by
  intro he
  have hd := congrArg String.data he
  rw [suffix_data] at hd
  exact absurd (List.append_eq_nil.mp hd).2 (by simp)

theorem cleanHeadersGo_ne_empty :
    ∀ (t : List (Option String)) (i : Nat) (seen : List (String × Nat)),
      (∀ h : String, some h ∈ t → h ≠ "") →
      ∀ l ∈ cleanHeadersGo t i seen, l ≠ "" := by
  intro t
  induction t with
  | nil => intro i seen _ l hl; exact absurd hl (List.not_mem_nil l)
  | cons o t ih =>
    intro i seen Ht l hl
    have Ht' : ∀ h : String, some h ∈ t → h ≠ "" :=
      fun h hm => Ht h (List.mem_cons_of_mem _ hm)
    cases o with
    | none =>
      rcases List.mem_cons.mp hl with rfl | hmem
      · exact colvacia_ne_empty _
      · exact ih (i + 1) seen Ht' l hmem
    | some h =>
      cases hg : seenGet seen h with
      | none =>
        rw [show cleanHeadersGo (some h :: t) i seen =
          h :: cleanHeadersGo t (i + 1) ((h, 0) :: seen) from by rw [cleanHeadersGo, hg]] at hl
        rcases List.mem_cons.mp hl with rfl | hmem
        · exact Ht l (List.mem_cons_self _ _)
        · exact ih (i + 1) _ Ht' l hmem
      | some k =>
        rw [show cleanHeadersGo (some h :: t) i seen =
          (h ++ "_" ++ natRepr (k + 1)) ::
            cleanHeadersGo t (i + 1) (seenBump seen h (k + 1)) from by
              rw [cleanHeadersGo, hg]] at hl
        rcases List.mem_cons.mp hl with rfl | hmem
        · exact suffix_ne_empty _ _
        · exact ih (i + 1) _ Ht' l hmem

theorem headerCell_eq_some {v : Value} {h : String} (he : headerCell v = some h) :
    h = pyStrip (pyStr v) ∧ pyStrip (pyStr v) ≠ "" := by
  by_cases hc : (isna v = true ∨ pyStrip (pyStr v) = "")
  · rw [headerCell, if_pos hc] at he
    exact absurd he (by simp)
  · rw [headerCell, if_neg hc] at he
    push_neg at hc
    exact ⟨(Option.some.inj he).symm, hc.2⟩

/-- C3 (amended): for every header row, the Clean Header List has the same
length as the row and consists of non-empty labels; the labels are moreover
pairwise distinct whenever no cell's trimmed text contains an underscore
(an original label that itself looks like a synthesized one, e.g.
`["Lote","Lote_1","Lote"]`, can collide with a suffixed duplicate); in
particular the header row `["Lote","Lote",""]` yields
`["Lote","Lote_1","col_vacia_2"]`. -/
theorem cleanHeaders_invariants (hs : List Value) :
    (cleanHeaders hs).length = hs.length ∧
    (∀ l ∈ cleanHeaders hs, l ≠ "") ∧
    ((∀ v ∈ hs, '_' ∉ (pyStrip (pyStr v)).data) → (cleanHeaders hs).Nodup) ∧
    cleanHeaders [.str "Lote", .str "Lote", .str ""] =
      ["Lote", "Lote_1", "col_vacia_2"] := by
  refine ⟨?_, ?_, ?_, by decide⟩
  · rw [cleanHeaders, cleanHeadersGo_length, List.length_map]
  · intro l hl
    refine cleanHeadersGo_ne_empty (hs.map headerCell) 0 [] ?_ l hl
    intro h hm
    obtain ⟨v, _, hcv⟩ := List.mem_map.mp hm
    obtain ⟨he, hne⟩ := headerCell_eq_some hcv
    rw [he]
    exact hne
  · intro hU
    refine (cleanHeadersGo_spec (hs.map headerCell) 0 [] ?_).1
    intro h hm
    obtain ⟨v, hv, hcv⟩ := List.mem_map.mp hm
    obtain ⟨he, _⟩ := headerCell_eq_some hcv
    rw [noUnder, he]
    exact hU v hv

/-- Witness for C3: on an underscore-free header row with a repeated label
the clean header list is duplicate-free. -/
theorem cleanHeaders_invariants_witness :
    (cleanHeaders [Value.str "A", Value.str "A", Value.str ""]).Nodup :=
  (cleanHeaders_invariants [Value.str "A", Value.str "A", Value.str ""]).2.2.1 (by decide)
